import Mathlib

/-!
# ADXL345 driver: the single-producer / multi-consumer ring buffer

Shallow embedding of `adxl345.c` (ring buffer, consumer-slot table, session
layer) and the properties of the specification that concern it.

Conventions of the embedding.

* `atomic_t` cells hold natural numbers; every value the driver stores in one is
  a `__u8` or a boolean.  A read into a `__u8` local is written `u8 x`.
* C arrays are total functions on `Nat`; `store` is the array assignment.  Only
  the indices below the declared length are ever touched by the code.
* `BUFFER_SIZE` is a macro of the source.  The operations take it as their first
  argument `cap`, so that the same code can also be run at the capacity 4 of the
  specification's overflow scenario; the driver itself is the instance
  `cap = BUFFER_SIZE`.
* The `do ... while` loop of `ring_buffer_pop` is run with an iteration budget
  (`fuel`); running out of budget is `none`.  In a sequential execution one
  iteration always suffices (`pop_eq`), so results are stated for `fuel + 1`.
* Memory barriers (`wmb`, `rmb`) have no effect in the sequential model and in the
  sequentially consistent interleaving model used for concurrent executions.
-/

namespace Adxl345

/-! ## Data model -/

/-- Capacity of the ring buffer (`#define BUFFER_SIZE 32`). -/
def BUFFER_SIZE : Nat := 32

/-- Number of consumer slots (`#define MAX_CONSUMERS 4`). -/
def MAX_CONSUMERS : Nat := 4

/-- One sample: `struct fifo_element { __u8 data[6]; }`. -/
structure fifo_element where
  data : Fin 6 → Fin 256

/-- The ring buffer: `typedef struct { ... } RingBuffer`. -/
structure RingBuffer where
  buffer : Nat → fifo_element
  queue : Nat
  tete : Nat → Nat
  consumer_id_distribues : Nat → Nat

/-- Conversion of an `int` value to `__u8`. -/
def u8 (x : Nat) : Nat := x % 256

/-- Array assignment `a[i] = v`. -/
def store {α : Type} (a : Nat → α) (i : Nat) (v : α) : Nat → α :=
  fun j => if j = i then v else a j

/-- The kernel primitive `atomic_cmpxchg(&cell, old, new)` on a cell holding `v`:
first component the value returned (the content before the call), second
component the content of the cell after the call. -/
def atomic_cmpxchg (v old new : Nat) : Nat × Nat :=
  (v, if v = old then new else v)

/-! ## Ring buffer operations -/

/-- Source: `ring_buffer_init`.  The storage is left as allocated. -/
def ring_buffer_init (rb : RingBuffer) : RingBuffer :=
  (List.range MAX_CONSUMERS).foldl
    (fun r i => { r with
      tete := store r.tete i 0
      consumer_id_distribues := store r.consumer_id_distribues i 0 })
    { rb with queue := 0 }

/-- Source: the `for` loop of `ring_buffer_get_id`, with `n` iterations left and
loop variable `i`. -/
def ring_buffer_get_id_loop : Nat → Nat → RingBuffer → Int × RingBuffer
  | 0, _, rb => (-1, rb)
  | n + 1, i, rb =>
    let r := atomic_cmpxchg (rb.consumer_id_distribues i) 0 1
    let rb1 := { rb with consumer_id_distribues := store rb.consumer_id_distribues i r.2 }
    if r.1 = 0 then ((i : Int), rb1) else ring_buffer_get_id_loop n (i + 1) rb1

/-- Source: `ring_buffer_get_id`. -/
def ring_buffer_get_id (rb : RingBuffer) : Int × RingBuffer :=
  ring_buffer_get_id_loop MAX_CONSUMERS 0 rb

/-- Source: `ring_buffer_release_id`. -/
def ring_buffer_release_id (rb : RingBuffer) (consumer_id : Nat) : RingBuffer :=
  { rb with consumer_id_distribues := store rb.consumer_id_distribues consumer_id 0 }

/-- Source: `ring_buffer_push`. -/
def ring_buffer_push (cap : Nat) (rb : RingBuffer) (data : fifo_element) : RingBuffer :=
  let queue_idx := u8 rb.queue
  let next_queue_idx := u8 ((queue_idx + 1) % cap)
  let next_next_queue_idx := u8 ((queue_idx + 2) % cap)
  let rb1 := (List.range MAX_CONSUMERS).foldl
    (fun r i => { r with
      tete := store r.tete i
        (atomic_cmpxchg (r.tete i) next_queue_idx next_next_queue_idx).2 })
    rb
  { rb1 with buffer := store rb1.buffer queue_idx data, queue := next_queue_idx }

/-- Source: `ring_buffer_is_empty`. -/
def ring_buffer_is_empty (rb : RingBuffer) (consumer_id : Nat) : Bool :=
  let queue := u8 rb.queue
  let tete := u8 (rb.tete consumer_id)
  queue == tete

/-- The ring buffer after the compare-and-set of `tete[consumer_id]` in the loop
body of `ring_buffer_pop`. -/
def pop_cas (cap : Nat) (rb : RingBuffer) (consumer_id : Nat) : RingBuffer :=
  { rb with
    tete := store rb.tete consumer_id
      (atomic_cmpxchg (rb.tete consumer_id) (u8 (rb.tete consumer_id))
        (u8 ((u8 (rb.tete consumer_id) + 1) % cap))).2 }

/-- Source: the `do ... while` loop of `ring_buffer_pop`, run for at most `fuel`
iterations.  The result is the buffer and the content of `*data` at loop exit. -/
def ring_buffer_pop_loop (cap : Nat) (consumer_id : Nat) :
    Nat → RingBuffer → fifo_element → Option (RingBuffer × fifo_element)
  | 0, _, _ => none
  | fuel + 1, rb, _ =>
    let tete_idx := u8 (rb.tete consumer_id)
    let tete_idx_next := u8 ((tete_idx + 1) % cap)
    let data := rb.buffer tete_idx
    let r := atomic_cmpxchg (rb.tete consumer_id) tete_idx tete_idx_next
    let rb1 := { rb with tete := store rb.tete consumer_id r.2 }
    let old_tete_idx := u8 r.1
    if old_tete_idx ≠ tete_idx then ring_buffer_pop_loop cap consumer_id fuel rb1 data
    else some (rb1, data)

/-- Source: `ring_buffer_pop`.  The argument `data` is the content of the
caller's `*data` before the call; the result is the returned boolean, the
content of `*data` after the call and the ring buffer after the call. -/
def ring_buffer_pop (cap fuel : Nat) (rb : RingBuffer) (consumer_id : Nat)
    (data : fifo_element) : Option (Bool × fifo_element × RingBuffer) :=
  if ring_buffer_is_empty rb consumer_id then some (false, data, rb)
  else
    match ring_buffer_pop_loop cap consumer_id fuel rb data with
    | none => none
    | some (rb1, d) => some (true, d, rb1)

/-- Pushing a list of samples, in order. -/
def push_all (cap : Nat) (rb : RingBuffer) (xs : List fifo_element) : RingBuffer :=
  xs.foldl (ring_buffer_push cap) rb

/-! ## Session layer

The character device built on the ring buffer.  Kernel services that the driver
calls but does not define are inputs of the model: whether `kmalloc` returned
memory, whether a signal interrupts `wait_event_interruptible`, whether
`copy_to_user` / `copy_from_user` reach the user address. -/

/-- Kernel error numbers used by the driver (`errno-base.h`, `errno.h`). -/
def EINTR : Int := 4

/-- Kernel error number for an input/output error. -/
def EIO_code : Int := 5

/-- Kernel error number for exhausted memory. -/
def ENOMEM : Int := 12

/-- Kernel error number for a bad user address. -/
def EFAULT : Int := 14

/-- Kernel error number for an unknown ioctl command. -/
def ENOTTY : Int := 25

/-- Character codes of the axis tags: the letters X, Y and Z. -/
def axe_X : Fin 256 := 88

/-- Character code of the letter Y. -/
def axe_Y : Fin 256 := 89

/-- Character code of the letter Z. -/
def axe_Z : Fin 256 := 90

/-- Per-open-file data: `struct adxl345_privatedata` (the device pointer is the
ring buffer that the calls below receive). -/
structure adxl345_privatedata where
  ringbuffer_id : Nat
  axe_actuel : Fin 256

/-- The cases of the `switch (cmd)` of `adxl345_unlocked_ioctl`. -/
inductive ioctl_cmd where
  | ADXL345_NO_ARG
  | ADXL345_READ
  | ADXL345_WRITE
  | ADXL345_READWRITE
  | unknown

/-- Source: `adxl345_open`.  Result: return value, the private data installed in
the file (if any), the ring buffer. -/
def adxl345_open (kmalloc_ok : Bool) (rb : RingBuffer) :
    Int × Option adxl345_privatedata × RingBuffer :=
  if kmalloc_ok = false then (-ENOMEM, none, rb)
  else
    let r := ring_buffer_get_id rb
    if r.1 = -1 then (-ENOMEM, none, r.2)
    else (0, some { ringbuffer_id := u8 r.1.toNat, axe_actuel := axe_X }, r.2)

/-- Source: `adxl345_release`. -/
def adxl345_release (pd : adxl345_privatedata) (rb : RingBuffer) : Int × RingBuffer :=
  (0, ring_buffer_release_id rb pd.ringbuffer_id)

/-- Source: `adxl345_unlocked_ioctl`.  The user word at `arg` is `none` when the
address cannot be accessed and `some b` when its first byte is `b`.  Result:
return value, private data after the call, user byte after the call. -/
def adxl345_unlocked_ioctl (pd : adxl345_privatedata) (cmd : ioctl_cmd)
    (arg : Option (Fin 256)) : Int × adxl345_privatedata × Option (Fin 256) :=
  let axe := pd.axe_actuel
  match cmd with
  | ioctl_cmd.ADXL345_NO_ARG => (0, pd, arg)
  | ioctl_cmd.ADXL345_READ =>
    match arg with
    | none => (-EFAULT, pd, arg)
    | some _ => (0, pd, some axe)
  | ioctl_cmd.ADXL345_WRITE | ioctl_cmd.ADXL345_READWRITE =>
    match arg with
    | none => (-EFAULT, pd, arg)
    | some b => (0, { pd with axe_actuel := b }, arg)
  | ioctl_cmd.unknown => (-ENOTTY, pd, arg)

/-- Outcome of one call of `adxl345_read`: the caller sleeps in
`wait_event_interruptible`, or the call returns `value` after `copy_to_user`
handed the bytes `copied` to the user buffer. -/
inductive ReadResult where
  | blocked
  | ret (value : Int) (copied : List (Fin 256))

/-- Source: `adxl345_read`, up to the point where the caller is put to sleep.
`elem` is the content of the local variable of that name at entry;
`signal_pending` tells whether the wait is interrupted, `copy_ok` whether
`copy_to_user` copies everything (returns 0). -/
def adxl345_read (cap fuel : Nat) (rb : RingBuffer) (pd : adxl345_privatedata)
    (elem : fifo_element) (count : Nat) (signal_pending copy_ok : Bool) :
    Option (ReadResult × RingBuffer) :=
  let count := min 2 count
  let regs : Fin 6 × Fin 6 :=
    if pd.axe_actuel = axe_Y then (2, 3)
    else if pd.axe_actuel = axe_Z then (4, 5)
    else (0, 1)
  if ring_buffer_is_empty rb pd.ringbuffer_id then
    if signal_pending then some (ReadResult.ret (-EINTR) [], rb)
    else some (ReadResult.blocked, rb)
  else
    match ring_buffer_pop cap fuel rb pd.ringbuffer_id elem with
    | none => none
    | some (ret, elem1, rb1) =>
      if ret = false then some (ReadResult.ret (- EIO_code) [], rb1)
      else
        let buf_kernel :=
          (if count > 0 then [elem1.data regs.1] else []) ++
          (if count > 1 then [elem1.data regs.2] else [])
        if copy_ok then some (ReadResult.ret (count : Int) buf_kernel, rb1)
        else some (ReadResult.ret (-EFAULT) [], rb1)

/-- Source: `adxl345_int`, the samples read from the device being `batch`. -/
def adxl345_int (cap : Nat) (rb : RingBuffer) (batch : List fifo_element) : RingBuffer :=
  push_all cap rb batch

/-! ## Sequential executions

A sequential execution is a list of calls issued one after the other on a ring
buffer that went through `ring_buffer_init`.  Consumer identities are the values
`ring_buffer_get_id` hands out, that is, numbers below `MAX_CONSUMERS`.  An
execution is instrumented with what the tests of the specification observe: the
list of pushed samples, and for each consumer slot the number of samples it
popped and the number of times a push moved its tail (a dropped sample). -/

/-- One call on the ring buffer. -/
inductive Op where
  | push (data : fifo_element)
  | pop (consumer_id : Fin MAX_CONSUMERS) (data : fifo_element)
  | get_id
  | release_id (consumer_id : Fin MAX_CONSUMERS)

/-- A ring buffer together with the record of the execution that produced it. -/
structure Run where
  rb : RingBuffer
  pushed : List fifo_element
  popped : Nat → Nat
  dropped : Nat → Nat

/-- The execution right after `ring_buffer_init` on freshly allocated memory. -/
def Run.start (rb0 : RingBuffer) : Run :=
  { rb := ring_buffer_init rb0, pushed := [], popped := fun _ => 0, dropped := fun _ => 0 }

/-- Effect of one call. -/
def Run.step (cap fuel : Nat) (s : Run) : Op → Option Run
  | Op.push x =>
    let rb1 := ring_buffer_push cap s.rb x
    some { rb := rb1
           pushed := s.pushed ++ [x]
           popped := s.popped
           dropped := fun i => if rb1.tete i = s.rb.tete i then s.dropped i else s.dropped i + 1 }
  | Op.pop consumer_id d =>
    match ring_buffer_pop cap fuel s.rb consumer_id.val d with
    | none => none
    | some (ret, _, rb1) =>
      some { s with
        rb := rb1
        popped := if ret then store s.popped consumer_id.val (s.popped consumer_id.val + 1)
                  else s.popped }
  | Op.get_id => some { s with rb := (ring_buffer_get_id s.rb).2 }
  | Op.release_id consumer_id =>
    some { s with rb := ring_buffer_release_id s.rb consumer_id.val }

/-- Effect of a list of calls. -/
def Run.exec (cap fuel : Nat) : Run → List Op → Option Run
  | s, [] => some s
  | s, op :: ops =>
    match Run.step cap fuel s op with
    | none => none
    | some s1 => Run.exec cap fuel s1 ops

/-- The executions that some list of calls produces from an initialised buffer. -/
def Reachable (cap : Nat) (s : Run) : Prop :=
  ∃ (fuel : Nat) (rb0 : RingBuffer) (ops : List Op),
    Run.exec cap fuel (Run.start rb0) ops = some s

/-- Successive calls `ring_buffer_pop(rb, consumer_id, &data)`, `k` of them, on the
same output variable: the list of (returned boolean, content of `data` after the
call) and the final ring buffer. -/
def pop_n (cap fuel : Nat) (consumer_id : Nat) :
    Nat → RingBuffer → fifo_element → Option (List (Bool × fifo_element) × RingBuffer)
  | 0, rb, _ => some ([], rb)
  | k + 1, rb, d =>
    match ring_buffer_pop cap fuel rb consumer_id d with
    | none => none
    | some (ret, d1, rb1) =>
      match pop_n cap fuel consumer_id k rb1 d1 with
      | none => none
      | some (out, rb2) => some ((ret, d1) :: out, rb2)

/-- Cursor invariant of the driver at `BUFFER_SIZE = 32`, `MAX_CONSUMERS = 4`,
in terms of the record of the execution: the head is the number of pushes, each
tail is the number of samples its slot has popped or lost, at most 31 samples
are unread, and the storage holds the last 32 pushed samples. -/
def Run.Inv (s : Run) : Prop :=
  s.rb.queue = s.pushed.length % 32 ∧
  (∀ i, i < 4 →
    s.rb.tete i = (s.popped i + s.dropped i) % 32 ∧
    s.popped i + s.dropped i ≤ s.pushed.length ∧
    s.pushed.length < s.popped i + s.dropped i + 32) ∧
  (∀ m, m < s.pushed.length → s.pushed.length ≤ m + 32 →
    s.pushed[m]? = some (s.rb.buffer (m % 32)))

/-- Cursor invariant for one consumer slot, relative to a list `H` of pushed
samples and the number `c` of them that the slot has consumed or lost. -/
def Win (rb : RingBuffer) (H : List fifo_element) (i c : Nat) : Prop :=
  rb.queue = H.length % 32 ∧
  rb.tete i = c % 32 ∧ c ≤ H.length ∧ H.length < c + 32 ∧
  (∀ m, m < H.length → H.length ≤ m + 32 → H[m]? = some (rb.buffer (m % 32)))

/-- Number of `ring_buffer_get_id` calls in a list of calls. -/
def claims : List Op → Nat
  | [] => 0
  | Op.get_id :: ops => claims ops + 1
  | _ :: ops => claims ops

/-- Whether a list of calls contains no `ring_buffer_release_id`. -/
def no_release : List Op → Bool
  | [] => true
  | Op.release_id _ :: _ => false
  | _ :: ops => no_release ops

/-- Calls `ring_buffer_pop` for the consumers of a list, one after the other, and
collects for each call the consumer, the returned boolean and the sample. -/
def pops_by (cap fuel : Nat) (d : fifo_element) :
    List Nat → RingBuffer → Option (List (Nat × Bool × fifo_element))
  | [], _ => some []
  | id :: ids, rb =>
    match ring_buffer_pop cap fuel rb id d with
    | none => none
    | some (ret, e, rb1) =>
      match pops_by cap fuel d ids rb1 with
      | none => none
      | some out => some ((id, ret, e) :: out)

/-- A sample whose six bytes all equal `b`. -/
def sample (b : Fin 256) : fifo_element := { data := fun _ => b }

/-- Some content of freshly allocated memory: nothing in it is initialised. -/
def rb_junk : RingBuffer :=
  { buffer := fun _ => sample 255
    queue := 7
    tete := fun _ => 9
    consumer_id_distribues := fun _ => 1 }

/-! ## Concurrent executions

One producer running `ring_buffer_push` for each sample of a batch and one consumer
running `ring_buffer_pop`, interleaved at the granularity of the statements that
touch shared memory (every `atomic_read`, `atomic_cmpxchg`, `atomic_set`, and the
copy of one sample from or to the storage).  The system is instrumented, as the
specification suggests for tests, with a write epoch per storage slot. -/

/-- Program points of `ring_buffer_push`. -/
inductive ProducerPc where
  | read_queue
  | cas (i : Nat)
  | write
  | publish

/-- Program points of `ring_buffer_pop`. -/
inductive ConsumerPc where
  | empty_read_queue
  | empty_read_tete
  | read_tete
  | copy
  | cas
  | returned (ret : Bool)
  deriving DecidableEq

/-- The producer: program point, the locals of `ring_buffer_push`, and the samples
still to push (the first one is the argument of the call in progress). -/
structure Producer where
  pc : ProducerPc
  queue_idx : Nat
  next_queue_idx : Nat
  next_next_queue_idx : Nat
  todo : List fifo_element

/-- The consumer: program point, the locals of `ring_buffer_is_empty` and
`ring_buffer_pop`, the content of `*data`, and the write epoch that the slot
copied last had at the time of the copy. -/
structure Consumer where
  pc : ConsumerPc
  consumer_id : Nat
  queue : Nat
  tete : Nat
  tete_idx : Nat
  tete_idx_next : Nat
  data : fifo_element
  copied_epoch : Nat

/-- Shared memory, the two threads, and the number of writes each slot received. -/
structure System where
  rb : RingBuffer
  producer : Producer
  consumer : Consumer
  epoch : Nat → Nat

/-- The two threads. -/
inductive Thread where
  | producer
  | consumer

/-- One statement of the producer (`cap` is `BUFFER_SIZE`). -/
def producer_step (cap : Nat) (s : System) : System :=
  let p := s.producer
  match p.todo with
  | [] => s
  | data :: rest =>
    match p.pc with
    | ProducerPc.read_queue =>
      let queue_idx := u8 s.rb.queue
      { s with
        producer := { p with
          pc := ProducerPc.cas 0
          queue_idx := queue_idx
          next_queue_idx := u8 ((queue_idx + 1) % cap)
          next_next_queue_idx := u8 ((queue_idx + 2) % cap) } }
    | ProducerPc.cas i =>
      let r := atomic_cmpxchg (s.rb.tete i) p.next_queue_idx p.next_next_queue_idx
      { s with
        rb := { s.rb with tete := store s.rb.tete i r.2 }
        producer := { p with
          pc := if i + 1 < MAX_CONSUMERS then ProducerPc.cas (i + 1) else ProducerPc.write } }
    | ProducerPc.write =>
      { s with
        rb := { s.rb with buffer := store s.rb.buffer p.queue_idx data }
        epoch := store s.epoch p.queue_idx (s.epoch p.queue_idx + 1)
        producer := { p with pc := ProducerPc.publish } }
    | ProducerPc.publish =>
      { s with
        rb := { s.rb with queue := p.next_queue_idx }
        producer := { p with pc := ProducerPc.read_queue, todo := rest } }

/-- One statement of the consumer (`cap` is `BUFFER_SIZE`). -/
def consumer_step (cap : Nat) (s : System) : System :=
  let c := s.consumer
  match c.pc with
  | ConsumerPc.empty_read_queue =>
    { s with consumer := { c with pc := ConsumerPc.empty_read_tete, queue := u8 s.rb.queue } }
  | ConsumerPc.empty_read_tete =>
    let tete := u8 (s.rb.tete c.consumer_id)
    { s with
      consumer := { c with
        pc := if c.queue = tete then ConsumerPc.returned false else ConsumerPc.read_tete
        tete := tete } }
  | ConsumerPc.read_tete =>
    let tete_idx := u8 (s.rb.tete c.consumer_id)
    { s with
      consumer := { c with
        pc := ConsumerPc.copy
        tete_idx := tete_idx
        tete_idx_next := u8 ((tete_idx + 1) % cap) } }
  | ConsumerPc.copy =>
    { s with
      consumer := { c with
        pc := ConsumerPc.cas
        data := s.rb.buffer c.tete_idx
        copied_epoch := s.epoch c.tete_idx } }
  | ConsumerPc.cas =>
    let r := atomic_cmpxchg (s.rb.tete c.consumer_id) c.tete_idx c.tete_idx_next
    { s with
      rb := { s.rb with tete := store s.rb.tete c.consumer_id r.2 }
      consumer := { c with
        pc := if u8 r.1 ≠ c.tete_idx then ConsumerPc.read_tete else ConsumerPc.returned true } }
  | ConsumerPc.returned _ => s

/-- One statement of the scheduled thread. -/
def System.step (cap : Nat) (s : System) : Thread → System
  | Thread.producer => producer_step cap s
  | Thread.consumer => consumer_step cap s

/-- Execution of a schedule. -/
def System.run (cap : Nat) (s : System) (schedule : List Thread) : System :=
  schedule.foldl (System.step cap) s

/-- The system at the start of a `ring_buffer_pop(consumer_id)` on the ring buffer
`rb`, the producer having the batch `todo` to push. -/
def System.start (rb : RingBuffer) (consumer_id : Nat) (data : fifo_element)
    (todo : List fifo_element) : System :=
  { rb := rb
    producer := { pc := ProducerPc.read_queue, queue_idx := 0, next_queue_idx := 0,
                  next_next_queue_idx := 0, todo := todo }
    consumer := { pc := ConsumerPc.empty_read_queue, consumer_id := consumer_id, queue := 0,
                  tete := 0, tete_idx := 0, tete_idx_next := 0, data := data,
                  copied_epoch := 0 }
    epoch := fun _ => 0 }

/-- The samples numbered 0 to `n - 1`: sample `k` has all its bytes equal to `k`. -/
def numbered (n : Nat) : List fifo_element :=
  (List.range n).map (fun k => sample (Fin.ofNat k))

/-- A schedule: the producer pushes one sample; the consumer tests emptiness, reads
its tail and copies the slot; the producer pushes 62 more samples; the consumer
runs its compare-and-set. -/
def aba_schedule : List Thread :=
  List.replicate 7 Thread.producer ++ List.replicate 4 Thread.consumer ++
    List.replicate (62 * 7) Thread.producer ++ [Thread.consumer]

/-- The system after the schedule `aba_schedule`, started on a freshly initialised
buffer with 63 numbered samples to push and consumer 0 calling `ring_buffer_pop`. -/
def aba_final : System :=
  System.run BUFFER_SIZE
    (System.start (ring_buffer_init rb_junk) 0 (sample 255) (numbered 63)) aba_schedule

/-- The same execution stopped after the 33rd push, the consumer being between its
copy and its compare-and-set. -/
def aba_middle : System :=
  System.run BUFFER_SIZE
    (System.start (ring_buffer_init rb_junk) 0 (sample 255) (numbered 63))
    (aba_schedule.take (7 + 4 + 32 * 7))

/-- The execution from `rb_junk` given by a list of calls. -/
def run_of (ops : List Op) : Run :=
  (Run.exec BUFFER_SIZE 1 (Run.start rb_junk) ops).getD (Run.start rb_junk)

/-- An execution: one claim, two pushes that consumer 0 pops, one more push. -/
def demo_ops : List Op :=
  [Op.get_id, Op.push (sample 1), Op.push (sample 2), Op.pop ⟨0, by decide⟩ (sample 0),
   Op.pop ⟨0, by decide⟩ (sample 0), Op.get_id, Op.push (sample 3)]

/-- An execution in which consumer 0 drains the buffer. -/
def drained_ops : List Op :=
  [Op.get_id, Op.push (sample 1), Op.push (sample 2), Op.pop ⟨0, by decide⟩ (sample 0),
   Op.pop ⟨0, by decide⟩ (sample 0)]

/-- An execution with 40 pushes and no pop. -/
def overrun_ops : List Op :=
  Op.get_id :: (numbered 40).map Op.push

/-- Four claims in a row. -/
def four_claims : List Op := [Op.get_id, Op.get_id, Op.get_id, Op.get_id]

/-- A session on slot 0 with the axis tag Y. -/
def session_Y : adxl345_privatedata := { ringbuffer_id := 0, axe_actuel := axe_Y }

/-! ## Basic facts about the operations -/

set_option maxRecDepth 1000000


theorem store_same {α : Type} (a : Nat → α) (i : Nat) (v : α) : store a i v i = v := by
  simp [store]

theorem store_other {α : Type} (a : Nat → α) (i j : Nat) (v : α) (h : j ≠ i) :
    store a i v j = a j := by
  simp [store, h]

theorem store_self_eq {α : Type} (a : Nat → α) (i : Nat) : store a i (a i) = a := by
  funext j
  by_cases h : j = i
  · subst h; simp [store]
  · simp [store, h]

theorem range_max_consumers : List.range MAX_CONSUMERS = [0, 1, 2, 3] := by
  decide

theorem init_queue (rb : RingBuffer) : (ring_buffer_init rb).queue = 0 := by
  simp [ring_buffer_init, range_max_consumers]

theorem init_buffer (rb : RingBuffer) : (ring_buffer_init rb).buffer = rb.buffer := by
  simp [ring_buffer_init, range_max_consumers]

theorem init_tete (rb : RingBuffer) (i : Nat) (hi : i < MAX_CONSUMERS) :
    (ring_buffer_init rb).tete i = 0 := by
  simp only [MAX_CONSUMERS] at hi
  simp only [ring_buffer_init, range_max_consumers, List.foldl, store]
  split_ifs <;> first | rfl | omega

theorem init_flags (rb : RingBuffer) (i : Nat) (hi : i < MAX_CONSUMERS) :
    (ring_buffer_init rb).consumer_id_distribues i = 0 := by
  simp only [MAX_CONSUMERS] at hi
  simp only [ring_buffer_init, range_max_consumers, List.foldl, store]
  split_ifs <;> first | rfl | omega

theorem push_queue (cap : Nat) (rb : RingBuffer) (x : fifo_element) :
    (ring_buffer_push cap rb x).queue = u8 ((u8 rb.queue + 1) % cap) := by
  simp [ring_buffer_push]

theorem push_flags (cap : Nat) (rb : RingBuffer) (x : fifo_element) :
    (ring_buffer_push cap rb x).consumer_id_distribues = rb.consumer_id_distribues := by
  simp [ring_buffer_push, range_max_consumers]

theorem push_buffer (cap : Nat) (rb : RingBuffer) (x : fifo_element) (j : Nat) :
    (ring_buffer_push cap rb x).buffer j = if j = u8 rb.queue then x else rb.buffer j := by
  simp [ring_buffer_push, range_max_consumers, store]

theorem push_tete (cap : Nat) (rb : RingBuffer) (x : fifo_element) (i : Nat) :
    (ring_buffer_push cap rb x).tete i =
      if i < MAX_CONSUMERS ∧ rb.tete i = u8 ((u8 rb.queue + 1) % cap)
      then u8 ((u8 rb.queue + 2) % cap) else rb.tete i := by
  simp only [ring_buffer_push, range_max_consumers, List.foldl, atomic_cmpxchg, MAX_CONSUMERS]
  rcases i with _ | _ | _ | _ | i <;> simp [store]
  split_ifs with h
  · omega
  · rfl

theorem pop_loop_once (cap consumer_id fuel : Nat) (rb : RingBuffer) (d : fifo_element) :
    ring_buffer_pop_loop cap consumer_id (fuel + 1) rb d =
      some (pop_cas cap rb consumer_id, rb.buffer (u8 (rb.tete consumer_id))) := by
  simp [ring_buffer_pop_loop, atomic_cmpxchg, pop_cas]

theorem pop_eq (cap fuel : Nat) (rb : RingBuffer) (consumer_id : Nat) (d : fifo_element) :
    ring_buffer_pop cap (fuel + 1) rb consumer_id d =
      if ring_buffer_is_empty rb consumer_id then some (false, d, rb)
      else some (true, rb.buffer (u8 (rb.tete consumer_id)), pop_cas cap rb consumer_id) := by
  simp only [ring_buffer_pop, pop_loop_once]

theorem get_id_loop_frame (n i : Nat) (rb : RingBuffer) :
    (ring_buffer_get_id_loop n i rb).2.buffer = rb.buffer ∧
    (ring_buffer_get_id_loop n i rb).2.queue = rb.queue ∧
    (ring_buffer_get_id_loop n i rb).2.tete = rb.tete := by
  induction n generalizing i rb with
  | zero => simp [ring_buffer_get_id_loop]
  | succ n ih =>
    simp only [ring_buffer_get_id_loop]
    split_ifs
    · simp
    · have h := ih (i + 1)
        { rb with
          consumer_id_distribues := store rb.consumer_id_distribues i
            (atomic_cmpxchg (rb.consumer_id_distribues i) 0 1).2 }
      simpa using h

theorem get_id_frame (rb : RingBuffer) :
    (ring_buffer_get_id rb).2.buffer = rb.buffer ∧
    (ring_buffer_get_id rb).2.queue = rb.queue ∧
    (ring_buffer_get_id rb).2.tete = rb.tete :=
  get_id_loop_frame MAX_CONSUMERS 0 rb

theorem inv_start (rb0 : RingBuffer) : (Run.start rb0).Inv := by
  refine ⟨?_, ?_, ?_⟩
  · simp [Run.start, init_queue]
  · intro i hi
    have h := init_tete rb0 i (by simpa [MAX_CONSUMERS] using hi)
    simp [Run.start, h]
  · intro m hm
    simp [Run.start] at hm

theorem inv_step (fuel : Nat) (s s1 : Run) (op : Op) (hs : s.Inv)
    (h : Run.step BUFFER_SIZE fuel s op = some s1) : s1.Inv := by
  obtain ⟨hq, ht, hb⟩ := hs
  cases op with
  | push x =>
    simp only [Run.step, Option.some.injEq] at h
    subst h
    refine ⟨?_, ?_, ?_⟩
    · simp only [push_queue, u8, BUFFER_SIZE, List.length_append, List.length_singleton]
      omega
    · intro i hi
      obtain ⟨h1, h2, h3⟩ := ht i hi
      simp only [push_tete, u8, BUFFER_SIZE, MAX_CONSUMERS, List.length_append,
        List.length_singleton]
      split_ifs <;> omega
    · intro m hm hm2
      simp only [List.length_append, List.length_singleton] at hm hm2
      simp only [push_buffer, u8, BUFFER_SIZE]
      by_cases hmn : m = s.pushed.length
      · subst hmn
        have : s.pushed.length % 32 = s.rb.queue % 256 := by omega
        simp [this]
      · have hlt : m < s.pushed.length := by omega
        have hne : ¬ (m % 32 = s.rb.queue % 256) := by omega
        rw [List.getElem?_append_left hlt, if_neg hne]
        exact hb m hlt (by omega)
  | pop id d =>
    obtain ⟨id, hid⟩ := id
    simp only [MAX_CONSUMERS] at hid
    obtain ⟨h1, h2, h3⟩ := ht id hid
    cases fuel with
    | zero =>
      simp only [Run.step, ring_buffer_pop, ring_buffer_pop_loop] at h
      split_ifs at h with he
      simp only [Option.some.injEq] at h
      subst h
      exact ⟨hq, by simpa using ht, hb⟩
    | succ fuel =>
      simp only [Run.step, pop_eq] at h
      split_ifs at h with he
      · simp only [Option.some.injEq] at h
        subst h
        exact ⟨hq, by simpa using ht, hb⟩
      · simp only [Option.some.injEq] at h
        subst h
        simp only [ring_buffer_is_empty, u8, beq_iff_eq] at he
        refine ⟨hq, ?_, hb⟩
        intro i hi
        obtain ⟨g1, g2, g3⟩ := ht i hi
        by_cases hii : i = id
        · subst hii
          simp only [pop_cas, atomic_cmpxchg, store, u8, BUFFER_SIZE, if_true]
          split_ifs <;> omega
        · simp only [pop_cas, store, if_neg hii, if_true]
          exact ⟨g1, g2, g3⟩
  | get_id =>
    simp only [Run.step, Option.some.injEq] at h
    subst h
    obtain ⟨f1, f2, f3⟩ := get_id_frame s.rb
    exact ⟨by simpa [f2] using hq, by simpa [f3] using ht, by simpa [f1] using hb⟩
  | release_id id =>
    simp only [Run.step, Option.some.injEq] at h
    subst h
    exact ⟨hq, ht, hb⟩

theorem inv_exec (fuel : Nat) (ops : List Op) (s s1 : Run) (hs : s.Inv)
    (h : Run.exec BUFFER_SIZE fuel s ops = some s1) : s1.Inv := by
  induction ops generalizing s with
  | nil =>
    simp only [Run.exec, Option.some.injEq] at h
    subst h
    exact hs
  | cons op ops ih =>
    simp only [Run.exec] at h
    cases hstep : Run.step BUFFER_SIZE fuel s op with
    | none => simp [hstep] at h
    | some s2 =>
      simp only [hstep] at h
      exact ih s2 (inv_step fuel s s2 op hs hstep) h

theorem inv_reachable (s : Run) (h : Reachable BUFFER_SIZE s) : s.Inv := by
  obtain ⟨fuel, rb0, ops, h⟩ := h
  exact inv_exec fuel ops _ s (inv_start rb0) h

/-! ## One consumer slot followed through pushes and pops -/

theorem win_of_inv (s : Run) (hs : s.Inv) (i : Nat) (hi : i < 4) :
    Win s.rb s.pushed i (s.popped i + s.dropped i) := by
  obtain ⟨hq, ht, hb⟩ := hs
  obtain ⟨h1, h2, h3⟩ := ht i hi
  exact ⟨hq, h1, h2, h3, hb⟩

theorem win_push (rb : RingBuffer) (H : List fifo_element) (i c : Nat) (hi : i < 4)
    (x : fifo_element) (h : Win rb H i c) :
    Win (ring_buffer_push BUFFER_SIZE rb x) (H ++ [x]) i
      (if H.length + 1 = c + 32 then c + 1 else c) := by
  obtain ⟨hq, h1, h2, h3, hb⟩ := h
  refine ⟨?_, ?_, ?_, ?_, ?_⟩
  · simp only [push_queue, u8, BUFFER_SIZE, List.length_append, List.length_singleton]
    omega
  · simp only [push_tete, u8, BUFFER_SIZE, MAX_CONSUMERS]
    split_ifs <;> omega
  · simp only [List.length_append, List.length_singleton]
    split_ifs <;> omega
  · simp only [List.length_append, List.length_singleton]
    split_ifs <;> omega
  · intro m hm hm2
    simp only [List.length_append, List.length_singleton] at hm hm2
    simp only [push_buffer, u8, BUFFER_SIZE]
    by_cases hmn : m = H.length
    · subst hmn
      have : H.length % 32 = rb.queue % 256 := by omega
      simp [this]
    · have hlt : m < H.length := by omega
      have hne : ¬ (m % 32 = rb.queue % 256) := by omega
      rw [List.getElem?_append_left hlt, if_neg hne]
      exact hb m hlt (by omega)

theorem win_push_all (xs : List fifo_element) (rb : RingBuffer) (H : List fifo_element)
    (i c : Nat) (hi : i < 4) (h : Win rb H i c) :
    Win (push_all BUFFER_SIZE rb xs) (H ++ xs) i (max c (H.length + xs.length - 31)) := by
  induction xs generalizing rb H c with
  | nil =>
    have hc : max c (H.length - 31) = c := by
      obtain ⟨_, _, h2, h3, _⟩ := h
      omega
    simp only [push_all, List.foldl, List.append_nil, List.length_nil, Nat.add_zero]
    rw [hc]
    exact h
  | cons x xs ih =>
    have h1 := win_push rb H i c hi x h
    have h2 := ih (ring_buffer_push BUFFER_SIZE rb x) (H ++ [x]) _ h1
    have e1 : H ++ [x] ++ xs = H ++ x :: xs := by simp
    have e2 : max (if H.length + 1 = c + 32 then c + 1 else c)
        ((H ++ [x]).length + xs.length - 31) = max c (H.length + (x :: xs).length - 31) := by
      obtain ⟨_, _, g2, g3, _⟩ := h
      simp only [List.length_append, List.length_singleton, List.length_cons, List.length_nil]
      split_ifs <;> omega
    rw [e1, e2] at h2
    exact h2

theorem win_pop (fuel : Nat) (rb : RingBuffer) (H : List fifo_element) (i c : Nat)
    (d : fifo_element) (h : Win rb H i c) :
    (c = H.length → ring_buffer_is_empty rb i = true ∧
      ring_buffer_pop BUFFER_SIZE (fuel + 1) rb i d = some (false, d, rb)) ∧
    (c < H.length → ring_buffer_is_empty rb i = false ∧
      ∃ e rb1, ring_buffer_pop BUFFER_SIZE (fuel + 1) rb i d = some (true, e, rb1) ∧
        H[c]? = some e ∧ e = rb.buffer (rb.tete i) ∧ rb1 = pop_cas BUFFER_SIZE rb i ∧
        Win rb1 H i (c + 1)) := by
  obtain ⟨hq, h1, h2, h3, hb⟩ := h
  constructor
  · intro hc
    have he : ring_buffer_is_empty rb i = true := by
      simp only [ring_buffer_is_empty, u8, beq_iff_eq]
      omega
    exact ⟨he, by simp [pop_eq, he]⟩
  · intro hc
    have he : ring_buffer_is_empty rb i = false := by
      simp only [ring_buffer_is_empty, u8, beq_eq_false_iff_ne, ne_eq]
      omega
    have hu : u8 (rb.tete i) = rb.tete i := by
      simp only [u8]
      omega
    refine ⟨he, rb.buffer (rb.tete i), pop_cas BUFFER_SIZE rb i, ?_, ?_, rfl, rfl, ?_⟩
    · simp [pop_eq, he, hu]
    · have := hb c hc (by omega)
      rw [this, h1]
    · refine ⟨hq, ?_, by omega, by omega, hb⟩
      simp only [pop_cas, atomic_cmpxchg, store, u8, BUFFER_SIZE, if_true]
      split_ifs <;> omega

theorem win_pop_n (fuel : Nat) (k : Nat) (rb : RingBuffer) (H : List fifo_element) (i c : Nat)
    (d : fifo_element) (h : Win rb H i c) (hk : c + k ≤ H.length) :
    ∃ rb1, pop_n BUFFER_SIZE (fuel + 1) i k rb d =
        some (((H.drop c).take k).map (fun x => (true, x)), rb1) ∧
      Win rb1 H i (c + k) := by
  induction k generalizing rb c d with
  | zero => exact ⟨rb, by simp [pop_n], h⟩
  | succ k ih =>
    obtain ⟨_, e, rb1, hp, he, _, _, hw⟩ := (win_pop fuel rb H i c d h).2 (by omega)
    obtain ⟨rb2, hp2, hw2⟩ := ih rb1 (c + 1) e hw (by omega)
    refine ⟨rb2, ?_, by simpa [Nat.add_assoc, Nat.add_comm 1 k] using hw2⟩
    have hd : H.drop c = e :: H.drop (c + 1) := by
      have hlt : c < H.length := by omega
      rw [List.getElem?_eq_getElem hlt] at he
      simp only [Option.some.injEq] at he
      rw [← he]
      exact List.drop_eq_getElem_cons hlt
    simp [pop_n, hp, hp2, hd]

/-! ## The claims of the specification -/

/-- C10. Effect of the overflow correction: on every reachable ring buffer, right
after `ring_buffer_push` returns no consumer slot (claimed or not) has its tail on
the head, so `ring_buffer_is_empty` is false for each of them and a pop finds a
sample; and push moves a tail exactly when it equalled `(old queue + 1) mod
BUFFER_SIZE`, to `(old queue + 2) mod BUFFER_SIZE`, leaving every other tail as it
was. -/
theorem push_overflow_correction (s : Run) (hs : Reachable BUFFER_SIZE s) (x : fifo_element) :
    (∀ i, i < MAX_CONSUMERS →
      (ring_buffer_push BUFFER_SIZE s.rb x).tete i ≠ (ring_buffer_push BUFFER_SIZE s.rb x).queue ∧
      ring_buffer_is_empty (ring_buffer_push BUFFER_SIZE s.rb x) i = false ∧
      ∀ fuel d, ∃ e rb1,
        ring_buffer_pop BUFFER_SIZE (fuel + 1) (ring_buffer_push BUFFER_SIZE s.rb x) i d =
          some (true, e, rb1)) ∧
    (∀ i, i < MAX_CONSUMERS →
      (ring_buffer_push BUFFER_SIZE s.rb x).tete i =
        if s.rb.tete i = (s.rb.queue + 1) % BUFFER_SIZE
        then (s.rb.queue + 2) % BUFFER_SIZE else s.rb.tete i) := by
  obtain ⟨hq, ht, _⟩ := inv_reachable s hs
  have key : ∀ i, i < MAX_CONSUMERS →
      (ring_buffer_push BUFFER_SIZE s.rb x).tete i ≠ (ring_buffer_push BUFFER_SIZE s.rb x).queue ∧
      ring_buffer_is_empty (ring_buffer_push BUFFER_SIZE s.rb x) i = false := by
    intro i hi
    simp only [MAX_CONSUMERS] at hi
    obtain ⟨h1, h2, h3⟩ := ht i hi
    simp only [ring_buffer_is_empty, push_tete, push_queue, u8, BUFFER_SIZE, MAX_CONSUMERS,
      beq_eq_false_iff_ne, ne_eq]
    constructor <;> split_ifs <;> omega
  refine ⟨fun i hi => ⟨(key i hi).1, (key i hi).2, fun fuel d => ?_⟩, fun i hi => ?_⟩
  · simp [pop_eq, (key i hi).2]
  · simp only [MAX_CONSUMERS] at hi
    obtain ⟨h1, h2, h3⟩ := ht i hi
    simp only [push_tete, u8, BUFFER_SIZE, MAX_CONSUMERS]
    split_ifs <;> omega

/-- C9. Unread-window invariant: in every execution reachable from
`ring_buffer_init` by push, pop, get_id and release_id calls, with `H` the list of
pushed samples and `n` its length, every consumer slot `i` has unread count
`k = (queue - tete[i]) mod BUFFER_SIZE` with `k ≤ min n (BUFFER_SIZE - 1)`, slot
`(tete[i] + j) mod BUFFER_SIZE` holds `H[n - k + j]` for every `j < k`, and a
successful `ring_buffer_pop(i)` returns `H[n - k]` (a pop of a slot with `k > 0`
does succeed). -/
theorem unread_window_invariant (s : Run) (hs : Reachable BUFFER_SIZE s) (i : Nat)
    (hi : i < MAX_CONSUMERS) :
    (s.rb.queue + BUFFER_SIZE - s.rb.tete i) % BUFFER_SIZE
        ≤ min s.pushed.length (BUFFER_SIZE - 1) ∧
    (∀ j, j < (s.rb.queue + BUFFER_SIZE - s.rb.tete i) % BUFFER_SIZE →
      s.pushed[s.pushed.length - (s.rb.queue + BUFFER_SIZE - s.rb.tete i) % BUFFER_SIZE + j]? =
        some (s.rb.buffer ((s.rb.tete i + j) % BUFFER_SIZE))) ∧
    (∀ fuel d e rb1, ring_buffer_pop BUFFER_SIZE fuel s.rb i d = some (true, e, rb1) →
      s.pushed[s.pushed.length - (s.rb.queue + BUFFER_SIZE - s.rb.tete i) % BUFFER_SIZE]? =
        some e) ∧
    (0 < (s.rb.queue + BUFFER_SIZE - s.rb.tete i) % BUFFER_SIZE →
      ∀ fuel d, ∃ e rb1, ring_buffer_pop BUFFER_SIZE (fuel + 1) s.rb i d = some (true, e, rb1)) := by
  have hinv := inv_reachable s hs
  simp only [MAX_CONSUMERS] at hi
  have hw := win_of_inv s hinv i hi
  obtain ⟨hq, h1, h2, h3, hb⟩ := hw
  have hk : (s.rb.queue + BUFFER_SIZE - s.rb.tete i) % BUFFER_SIZE =
      s.pushed.length - (s.popped i + s.dropped i) := by
    simp only [BUFFER_SIZE]
    omega
  rw [hk]
  refine ⟨?_, ?_, ?_, ?_⟩
  · simp only [BUFFER_SIZE]
    omega
  · intro j hj
    have := hb (s.pushed.length - (s.pushed.length - (s.popped i + s.dropped i)) + j)
      (by omega) (by omega)
    rw [this]
    congr 2
    simp only [BUFFER_SIZE]
    omega
  · intro fuel d e rb1 hp
    have hc : s.pushed.length - (s.pushed.length - (s.popped i + s.dropped i)) =
        s.popped i + s.dropped i := by omega
    rw [hc]
    cases fuel with
    | zero =>
      simp only [ring_buffer_pop, ring_buffer_pop_loop] at hp
      split_ifs at hp
      simp at hp
    | succ fuel =>
      rcases Nat.lt_or_ge (s.popped i + s.dropped i) s.pushed.length with hlt | hge
      · obtain ⟨_, e1, rb2, hp1, he, _⟩ :=
          (win_pop fuel s.rb s.pushed i _ d ⟨hq, h1, h2, h3, hb⟩).2 hlt
        rw [hp1] at hp
        simp only [Option.some.injEq, Prod.mk.injEq, true_and] at hp
        rw [← hp.1]
        exact he
      · have := ((win_pop fuel s.rb s.pushed i _ d ⟨hq, h1, h2, h3, hb⟩).1 (by omega)).2
        rw [this] at hp
        simp at hp
  · intro hpos fuel d
    obtain ⟨_, e1, rb2, hp1, _⟩ :=
      (win_pop fuel s.rb s.pushed i _ d ⟨hq, h1, h2, h3, hb⟩).2 (by omega)
    exact ⟨e1, rb2, hp1⟩

/-- C1. FIFO delivery: on every reachable ring buffer, for a consumer `id` below
`MAX_CONSUMERS` with nothing unread (`tete[id] == queue`) and a list of `k`
samples with `k < BUFFER_SIZE`, after the samples are pushed in order the next
`k` calls `ring_buffer_pop(id)` all return true and yield exactly those samples
in push order, and one more pop returns false. -/
theorem fifo_delivery (s : Run) (hs : Reachable BUFFER_SIZE s) (id : Nat)
    (hid : id < MAX_CONSUMERS) (hempty : s.rb.tete id = s.rb.queue)
    (xs : List fifo_element) (hk : xs.length < BUFFER_SIZE) (fuel : Nat) (d : fifo_element) :
    ∃ rb2,
      pop_n BUFFER_SIZE (fuel + 1) id xs.length (push_all BUFFER_SIZE s.rb xs) d =
        some (xs.map (fun x => (true, x)), rb2) ∧
      ∀ d1, ring_buffer_pop BUFFER_SIZE (fuel + 1) rb2 id d1 = some (false, d1, rb2) := by
  simp only [MAX_CONSUMERS] at hid
  simp only [BUFFER_SIZE] at hk
  have hw := win_of_inv s (inv_reachable s hs) id hid
  have hc : s.popped id + s.dropped id = s.pushed.length := by
    obtain ⟨hq, h1, h2, h3, _⟩ := hw
    omega
  rw [hc] at hw
  have hw1 := win_push_all xs s.rb s.pushed id _ hid hw
  have hm : max s.pushed.length (s.pushed.length + xs.length - 31) = s.pushed.length := by
    omega
  rw [hm] at hw1
  obtain ⟨rb2, hp, hw2⟩ := win_pop_n fuel xs.length _ _ id _ d hw1 (by simp)
  refine ⟨rb2, ?_, fun d1 => ?_⟩
  · rw [hp]
    simp
  · exact ((win_pop fuel rb2 _ id _ d1 hw2).1 (by simp)).2

/-- C2. Overflow law: on every reachable ring buffer, if `n ≥ BUFFER_SIZE` samples
are pushed while consumer `id` does not pop, the next `ring_buffer_pop(id)`
returns true and yields one of the last `BUFFER_SIZE` pushed samples (the one at
position `n - (BUFFER_SIZE - 1)`), read from the slot its own push wrote and no
later push has written; the last of those pushes moved the tail of `id`.
Scenario with capacity 4 on a freshly initialised buffer: after pushing A, B, C,
D, E with no pop, the push of E moves every tail from 1 to 2, slot 0 holds E
instead of A, and the first pop of any consumer returns C. -/
theorem overflow_law (s : Run) (hs : Reachable BUFFER_SIZE s) (id : Nat)
    (hid : id < MAX_CONSUMERS) (xs : List fifo_element) (hn : BUFFER_SIZE ≤ xs.length)
    (fuel : Nat) (d : fifo_element) :
    (∃ e rb2,
      ring_buffer_pop BUFFER_SIZE (fuel + 1) (push_all BUFFER_SIZE s.rb xs) id d =
        some (true, e, rb2) ∧
      (∃ j, xs.length - BUFFER_SIZE ≤ j ∧ j < xs.length ∧ xs[j]? = some e) ∧
      xs[xs.length - (BUFFER_SIZE - 1)]? = some e ∧
      e = (push_all BUFFER_SIZE s.rb xs).buffer ((push_all BUFFER_SIZE s.rb xs).tete id) ∧
      u8 (push_all BUFFER_SIZE s.rb (xs.take (xs.length - (BUFFER_SIZE - 1)))).queue =
        (push_all BUFFER_SIZE s.rb xs).tete id ∧
      (∀ m, xs.length - (BUFFER_SIZE - 1) < m → m < xs.length →
        u8 (push_all BUFFER_SIZE s.rb (xs.take m)).queue ≠
          (push_all BUFFER_SIZE s.rb xs).tete id) ∧
      (push_all BUFFER_SIZE s.rb xs).tete id ≠
        (push_all BUFFER_SIZE s.rb (xs.take (xs.length - 1))).tete id) ∧
    (∀ (rb0 : RingBuffer) (A B C D E : fifo_element) (i : Nat), i < MAX_CONSUMERS →
      (push_all 4 (ring_buffer_init rb0) [A, B, C, D]).tete i = 1 ∧
      (push_all 4 (ring_buffer_init rb0) [A, B, C, D, E]).tete i = 2 ∧
      (push_all 4 (ring_buffer_init rb0) [A, B, C, D, E]).buffer 0 = E ∧
      ∃ rb2, ring_buffer_pop 4 (fuel + 1) (push_all 4 (ring_buffer_init rb0) [A, B, C, D, E]) i d =
        some (true, C, rb2)) := by
  constructor
  · simp only [MAX_CONSUMERS] at hid
    simp only [BUFFER_SIZE] at hn
    have hw := win_of_inv s (inv_reachable s hs) id hid
    have hc := hw.2.2.1
    have hall := fun (ys : List fifo_element) => win_push_all ys s.rb s.pushed id _ hid hw
    have hw1 := hall xs
    have hm : max (s.popped id + s.dropped id) (s.pushed.length + xs.length - 31) =
        s.pushed.length + (xs.length - 31) := by omega
    rw [hm] at hw1
    obtain ⟨_, e, rb2, hp, he, hbuf, _, _⟩ :=
      (win_pop fuel _ _ id _ d hw1).2 (by simp only [List.length_append]; omega)
    have hxs : xs[xs.length - 31]? = some e := by
      rw [← he, List.getElem?_append_right (by omega)]
      congr 1
      omega
    have e31 : BUFFER_SIZE - 1 = 31 := rfl
    rw [e31]
    refine ⟨e, rb2, hp, ⟨xs.length - 31, ?_, by omega, hxs⟩, hxs, hbuf, ?_, ?_, ?_⟩
    · simp only [BUFFER_SIZE]
      omega
    · have h2 := (hall (xs.take (xs.length - 31))).1
      have h3 := hw1.2.1
      simp only [List.length_append, List.length_take] at h2
      rw [h3, h2]
      simp only [u8]
      omega
    · intro m hm1 hm2
      have h2 := (hall (xs.take m)).1
      have h3 := hw1.2.1
      simp only [List.length_append, List.length_take] at h2
      rw [h3, h2]
      simp only [u8]
      omega
    · have h2 := (hall (xs.take (xs.length - 1))).2.1
      have h3 := hw1.2.1
      simp only [List.length_append, List.length_take] at h2
      rw [h3, h2]
      omega
  · intro rb0 A B C D E i hi
    have t0 := init_tete rb0 i hi
    have q0 := init_queue rb0
    simp only [MAX_CONSUMERS] at hi
    have e1 : ring_buffer_is_empty (push_all 4 (ring_buffer_init rb0) [A, B, C, D, E]) i
        = false := by
      simp [ring_buffer_is_empty, push_all, push_tete, push_queue, u8, MAX_CONSUMERS, hi, t0, q0]
    refine ⟨?_, ?_, ?_, ?_⟩
    · simp [push_all, push_tete, push_queue, u8, MAX_CONSUMERS, hi, t0, q0]
    · simp [push_all, push_tete, push_queue, u8, MAX_CONSUMERS, hi, t0, q0]
    · simp [push_all, push_buffer, push_queue, u8, q0]
    · refine ⟨pop_cas 4 (push_all 4 (ring_buffer_init rb0) [A, B, C, D, E]) i, ?_⟩
      rw [pop_eq, e1]
      simp [push_all, push_tete, push_buffer, push_queue, u8, MAX_CONSUMERS, hi, t0, q0]

/-- C3. Emptiness accuracy: `ring_buffer_is_empty(id)` is true whenever
`tete[id] == queue`, and exactly then on every state whose cursors are `__u8`
values; on every reachable execution this is the case iff every sample pushed so
far has been popped by `id` or dropped from its window by the overflow
correction.  `ring_buffer_pop(id)` returns false when `is_empty(id)` is true,
leaving the ring buffer and the output sample as they were, and returns true when
it is false, so `adxl345_read` never returns `-EIO`. -/
theorem emptiness_accuracy :
    (∀ (rb : RingBuffer) (id : Nat), rb.tete id = rb.queue → ring_buffer_is_empty rb id = true) ∧
    (∀ (rb : RingBuffer) (id : Nat), rb.queue < 256 → rb.tete id < 256 →
      (ring_buffer_is_empty rb id = true ↔ rb.tete id = rb.queue)) ∧
    (∀ (s : Run), Reachable BUFFER_SIZE s → ∀ id, id < MAX_CONSUMERS →
      (ring_buffer_is_empty s.rb id = true ↔ s.rb.tete id = s.rb.queue) ∧
      (ring_buffer_is_empty s.rb id = true ↔ s.popped id + s.dropped id = s.pushed.length)) ∧
    (∀ (cap fuel : Nat) (rb : RingBuffer) (id : Nat) (d : fifo_element),
      (ring_buffer_is_empty rb id = true →
        ring_buffer_pop cap (fuel + 1) rb id d = some (false, d, rb)) ∧
      (ring_buffer_is_empty rb id = false →
        ∃ e rb1, ring_buffer_pop cap (fuel + 1) rb id d = some (true, e, rb1))) ∧
    (∀ (cap fuel : Nat) (rb : RingBuffer) (pd : adxl345_privatedata) (elem : fifo_element)
        (count : Nat) (signal_pending copy_ok : Bool),
      (∃ r, adxl345_read cap (fuel + 1) rb pd elem count signal_pending copy_ok = some r) ∧
      ∀ bytes rb1, adxl345_read cap (fuel + 1) rb pd elem count signal_pending copy_ok ≠
        some (ReadResult.ret (- EIO_code) bytes, rb1)) := by
  refine ⟨?_, ?_, ?_, ?_, ?_⟩
  · intro rb id h
    simp [ring_buffer_is_empty, h]
  · intro rb id hq ht
    simp only [ring_buffer_is_empty, u8, beq_iff_eq]
    omega
  · intro s hs id hid
    simp only [MAX_CONSUMERS] at hid
    obtain ⟨hq, h1, h2, h3, _⟩ := win_of_inv s (inv_reachable s hs) id hid
    simp only [ring_buffer_is_empty, u8, beq_iff_eq]
    constructor <;> omega
  · intro cap fuel rb id d
    constructor
    · intro h
      simp [pop_eq, h]
    · intro h
      simp [pop_eq, h]
  · intro cap fuel rb pd elem count signal_pending copy_ok
    simp only [adxl345_read, pop_eq]
    by_cases he : ring_buffer_is_empty rb pd.ringbuffer_id = true
    · cases signal_pending <;> simp [he, EINTR, EIO_code]
    · cases copy_ok <;> simp [he, EFAULT, EIO_code]
      intro h
      omega

/-! ## Consumer slot table -/

theorem get_id_loop_none (n i : Nat) (rb : RingBuffer)
    (h : ∀ j, i ≤ j → j < i + n → rb.consumer_id_distribues j ≠ 0) :
    ring_buffer_get_id_loop n i rb = (-1, rb) := by
  induction n generalizing i with
  | zero => rfl
  | succ n ih =>
    have hi : rb.consumer_id_distribues i ≠ 0 := h i (Nat.le_refl i) (by omega)
    simp only [ring_buffer_get_id_loop, atomic_cmpxchg, if_neg hi, store_self_eq]
    exact ih (i + 1) (fun j h1 h2 => h j (by omega) (by omega))

theorem get_id_loop_some (n i k : Nat) (rb : RingBuffer) (hik : i ≤ k) (hk : k < i + n)
    (h0 : rb.consumer_id_distribues k = 0)
    (h : ∀ j, i ≤ j → j < k → rb.consumer_id_distribues j ≠ 0) :
    ring_buffer_get_id_loop n i rb =
      ((k : Int), { rb with consumer_id_distribues := store rb.consumer_id_distribues k 1 }) := by
  induction n generalizing i with
  | zero => omega
  | succ n ih =>
    by_cases hi : i = k
    · subst hi
      simp [ring_buffer_get_id_loop, atomic_cmpxchg, h0]
    · have hne : rb.consumer_id_distribues i ≠ 0 := h i (Nat.le_refl i) (by omega)
      simp only [ring_buffer_get_id_loop, atomic_cmpxchg, if_neg hne, store_self_eq]
      exact ih (i + 1) (by omega) (by omega) (fun j h1 h2 => h j (by omega) h2)

theorem get_id_cases (rb : RingBuffer) :
    ((∀ j, j < MAX_CONSUMERS → rb.consumer_id_distribues j ≠ 0) ∧
      ring_buffer_get_id rb = (-1, rb)) ∨
    (∃ k, k < MAX_CONSUMERS ∧ rb.consumer_id_distribues k = 0 ∧
      (∀ j, j < k → rb.consumer_id_distribues j ≠ 0) ∧
      ring_buffer_get_id rb =
        ((k : Int), { rb with consumer_id_distribues := store rb.consumer_id_distribues k 1 })) := by
  by_cases h : ∀ j, j < MAX_CONSUMERS → rb.consumer_id_distribues j ≠ 0
  · left
    exact ⟨h, get_id_loop_none MAX_CONSUMERS 0 rb (fun j _ hj => h j (by omega))⟩
  · right
    have hex : ∃ k, k < MAX_CONSUMERS ∧ rb.consumer_id_distribues k = 0 := by
      by_contra hc
      exact h (fun j hj h0 => hc ⟨j, hj, h0⟩)
    refine ⟨Nat.find hex, (Nat.find_spec hex).1, (Nat.find_spec hex).2, ?_, ?_⟩
    · intro j hj h0
      exact Nat.find_min hex hj ⟨Nat.lt_trans hj (Nat.find_spec hex).1, h0⟩
    · refine get_id_loop_some MAX_CONSUMERS 0 _ rb (Nat.zero_le _)
        (by have := (Nat.find_spec hex).1; omega) (Nat.find_spec hex).2 ?_
      intro j _ hj h0
      exact Nat.find_min hex hj ⟨Nat.lt_trans hj (Nat.find_spec hex).1, h0⟩

theorem pop_frame (cap fuel : Nat) (rb : RingBuffer) (id : Nat) (d : fifo_element)
    (ret : Bool) (e : fifo_element) (rb1 : RingBuffer)
    (h : ring_buffer_pop cap fuel rb id d = some (ret, e, rb1)) :
    rb1.queue = rb.queue ∧ rb1.buffer = rb.buffer ∧
    rb1.consumer_id_distribues = rb.consumer_id_distribues ∧
    ∀ j, j ≠ id → rb1.tete j = rb.tete j := by
  cases fuel with
  | zero =>
    simp only [ring_buffer_pop, ring_buffer_pop_loop] at h
    split_ifs at h
    simp only [Option.some.injEq, Prod.mk.injEq] at h
    obtain ⟨_, _, h3⟩ := h
    subst h3
    exact ⟨rfl, rfl, rfl, fun _ _ => rfl⟩
  | succ fuel =>
    rw [pop_eq] at h
    split_ifs at h
    · simp only [Option.some.injEq, Prod.mk.injEq] at h
      obtain ⟨_, _, h3⟩ := h
      subst h3
      exact ⟨rfl, rfl, rfl, fun _ _ => rfl⟩
    · simp only [Option.some.injEq, Prod.mk.injEq] at h
      obtain ⟨_, _, h3⟩ := h
      subst h3
      exact ⟨rfl, rfl, rfl, fun j hj => by simp [pop_cas, store, hj]⟩

/-- Claimed flags after `c` claims and no release: the first `c` slots are taken. -/
theorem claims_exec (cap fuel : Nat) (ops : List Op) (s s1 : Run) (c : Nat)
    (hs : ∀ i, i < MAX_CONSUMERS → s.rb.consumer_id_distribues i = if i < c then 1 else 0)
    (hops : no_release ops = true) (h : Run.exec cap fuel s ops = some s1) :
    ∀ i, i < MAX_CONSUMERS →
      s1.rb.consumer_id_distribues i = if i < c + claims ops then 1 else 0 := by
  induction ops generalizing s c with
  | nil =>
    simp only [Run.exec, Option.some.injEq] at h
    subst h
    simpa [claims] using hs
  | cons op ops ih =>
    simp only [Run.exec] at h
    cases hstep : Run.step cap fuel s op with
    | none => simp [hstep] at h
    | some s2 =>
      simp only [hstep] at h
      cases op with
      | push x =>
        simp only [Run.step, Option.some.injEq] at hstep
        subst hstep
        exact ih _ c (by simpa [push_flags] using hs) (by simpa [no_release] using hops) h
      | pop id d =>
        simp only [Run.step] at hstep
        cases hp : ring_buffer_pop cap fuel s.rb id.val d with
        | none => simp [hp] at hstep
        | some r =>
          obtain ⟨ret, e, rb1⟩ := r
          simp only [hp, Option.some.injEq] at hstep
          subst hstep
          have hf := (pop_frame cap fuel s.rb id.val d ret e rb1 hp).2.2.1
          exact ih _ c (by simpa [hf] using hs) (by simpa [no_release] using hops) h
      | get_id =>
        simp only [Run.step, Option.some.injEq] at hstep
        subst hstep
        have hc : claims (Op.get_id :: ops) = claims ops + 1 := rfl
        rw [hc, show c + (claims ops + 1) = (c + 1) + claims ops by omega]
        refine ih _ (c + 1) ?_ (by simpa [no_release] using hops) h
        intro i hi
        rcases get_id_cases s.rb with ⟨hall, hg⟩ | ⟨k, hk, hk0, hlow, hg⟩
        · simp only [hg]
          have h1 := hs i hi
          have h2 := hall i hi
          rw [h1] at h2 ⊢
          split_ifs at h2 ⊢ <;> first | rfl | omega
        · simp only [hg, store]
          have hkc : k = c := by
            have h1 := hs k hk
            rw [hk0] at h1
            have h2 : ¬ k < c := by
              intro hlt
              simp [hlt] at h1
            rcases Nat.lt_or_ge c k with h3 | h3
            · have h4 := hs c (by omega)
              have h5 := hlow c h3
              simp at h4
              exact absurd h4 h5
            · omega
          subst hkc
          have h1 := hs i hi
          split_ifs at h1 ⊢ <;> first | rfl | omega
      | release_id id => simp [no_release] at hops

/-- C5. Slot claiming: on every state `ring_buffer_get_id` returns -1 iff the
`MAX_CONSUMERS` flags are all set, and then changes nothing; otherwise it returns
the lowest index whose flag is clear, sets exactly that flag and leaves every
other flag, every tail, the head and the storage as they were.  Hence, from
`ring_buffer_init` and with no release in between, the claim that follows `c`
earlier claims returns `c` for `c < MAX_CONSUMERS` (identities 0, 1, 2, 3 in
order) and fails from the fifth on, where `adxl345_open` returns `-ENOMEM`. -/
theorem slot_claiming :
    (∀ rb : RingBuffer, (ring_buffer_get_id rb).1 = -1 ↔
      ∀ i, i < MAX_CONSUMERS → rb.consumer_id_distribues i ≠ 0) ∧
    (∀ rb : RingBuffer, (ring_buffer_get_id rb).1 = -1 → (ring_buffer_get_id rb).2 = rb) ∧
    (∀ rb : RingBuffer, (ring_buffer_get_id rb).1 ≠ -1 →
      ∃ i, i < MAX_CONSUMERS ∧ (ring_buffer_get_id rb).1 = (i : Int) ∧
        rb.consumer_id_distribues i = 0 ∧
        (∀ j, j < i → rb.consumer_id_distribues j ≠ 0) ∧
        (ring_buffer_get_id rb).2.consumer_id_distribues i = 1 ∧
        (∀ j, j ≠ i → (ring_buffer_get_id rb).2.consumer_id_distribues j =
          rb.consumer_id_distribues j) ∧
        (ring_buffer_get_id rb).2.tete = rb.tete ∧
        (ring_buffer_get_id rb).2.queue = rb.queue ∧
        (ring_buffer_get_id rb).2.buffer = rb.buffer) ∧
    (∀ (cap fuel : Nat) (rb0 : RingBuffer) (ops : List Op) (s : Run),
      no_release ops = true → Run.exec cap fuel (Run.start rb0) ops = some s →
      (claims ops < MAX_CONSUMERS →
        (ring_buffer_get_id s.rb).1 = (claims ops : Int) ∧
        (adxl345_open true s.rb).1 = 0) ∧
      (MAX_CONSUMERS ≤ claims ops →
        (ring_buffer_get_id s.rb).1 = -1 ∧
        ∀ kmalloc_ok, (adxl345_open kmalloc_ok s.rb).1 = -ENOMEM)) := by
  refine ⟨?_, ?_, ?_, ?_⟩
  · intro rb
    rcases get_id_cases rb with ⟨hall, hg⟩ | ⟨k, hk, hk0, hlow, hg⟩
    · simp only [hg, true_iff]
      exact hall
    · rw [hg]
      constructor
      · intro h
        simp only at h
        omega
      · intro h
        exact absurd hk0 (h k hk)
  · intro rb h
    rcases get_id_cases rb with ⟨hall, hg⟩ | ⟨k, hk, hk0, hlow, hg⟩
    · rw [hg]
    · rw [hg] at h
      simp only at h
      omega
  · intro rb h
    rcases get_id_cases rb with ⟨hall, hg⟩ | ⟨k, hk, hk0, hlow, hg⟩
    · rw [hg] at h
      exact absurd rfl h
    · rw [hg]
      refine ⟨k, hk, rfl, hk0, hlow, by simp [store], ?_, rfl, rfl, rfl⟩
      intro j hj
      simp [store, hj]
  · intro cap fuel rb0 ops s hops h
    have hfl := claims_exec cap fuel ops (Run.start rb0) s 0
      (fun i hi => by simpa [Run.start] using init_flags rb0 i hi) hops h
    simp only [Nat.zero_add] at hfl
    constructor
    · intro hc
      have hg : ring_buffer_get_id s.rb = ((claims ops : Int),
          { s.rb with
            consumer_id_distribues := store s.rb.consumer_id_distribues (claims ops) 1 }) := by
        refine get_id_loop_some MAX_CONSUMERS 0 (claims ops) s.rb (Nat.zero_le _) (by omega)
          ?_ ?_
        · simpa using hfl _ hc
        · intro j _ hj
          have := hfl j (by omega)
          simp [this, hj]
      refine ⟨by rw [hg], ?_⟩
      simp only [adxl345_open, hg]
      have : ¬ ((claims ops : Int) = -1) := by omega
      simp [this]
    · intro hc
      have hg : ring_buffer_get_id s.rb = (-1, s.rb) := by
        refine get_id_loop_none MAX_CONSUMERS 0 s.rb ?_
        intro j _ hj
        have := hfl j (by omega)
        simp only [Nat.zero_add] at hj
        have hjc : j < claims ops := by omega
        simp [this, hjc]
      refine ⟨by rw [hg], ?_⟩
      intro kmalloc_ok
      cases kmalloc_ok <;> simp [adxl345_open, hg]

/-- C6, as the code has it. Release then reclaim: after
`ring_buffer_release_id(id)` the next `ring_buffer_get_id` returns `id` again
exactly when every lower slot is claimed; neither call touches a tail, the head
or the storage, so the new owner starts at the tail position the slot had:
`ring_buffer_is_empty(id)` right after the claim is what it was before the
release, and a pop of the new owner returns what a pop of the previous owner
would have returned. -/
theorem release_then_reclaim (rb : RingBuffer) (id : Nat) (hid : id < MAX_CONSUMERS) :
    ((ring_buffer_get_id (ring_buffer_release_id rb id)).1 = (id : Int) ↔
      ∀ j, j < id → rb.consumer_id_distribues j ≠ 0) ∧
    (ring_buffer_get_id (ring_buffer_release_id rb id)).2.tete = rb.tete ∧
    (ring_buffer_get_id (ring_buffer_release_id rb id)).2.queue = rb.queue ∧
    (ring_buffer_get_id (ring_buffer_release_id rb id)).2.buffer = rb.buffer ∧
    ring_buffer_is_empty (ring_buffer_get_id (ring_buffer_release_id rb id)).2 id =
      ring_buffer_is_empty rb id ∧
    ∀ (cap fuel : Nat) (d : fifo_element),
      (ring_buffer_pop cap (fuel + 1)
          (ring_buffer_get_id (ring_buffer_release_id rb id)).2 id d).map
          (fun r => (r.1, r.2.1)) =
        (ring_buffer_pop cap (fuel + 1) rb id d).map (fun r => (r.1, r.2.1)) := by
  obtain ⟨f1, f2, f3⟩ := get_id_frame (ring_buffer_release_id rb id)
  have g1 : (ring_buffer_get_id (ring_buffer_release_id rb id)).2.tete = rb.tete := f3
  have g2 : (ring_buffer_get_id (ring_buffer_release_id rb id)).2.queue = rb.queue := f2
  have g3 : (ring_buffer_get_id (ring_buffer_release_id rb id)).2.buffer = rb.buffer := f1
  have g4 : ring_buffer_is_empty (ring_buffer_get_id (ring_buffer_release_id rb id)).2 id =
      ring_buffer_is_empty rb id := by
    simp only [ring_buffer_is_empty, g1, g2]
  refine ⟨?_, g1, g2, g3, g4, ?_⟩
  · have hrel : ∀ j, (ring_buffer_release_id rb id).consumer_id_distribues j =
        if j = id then 0 else rb.consumer_id_distribues j := by
      intro j
      simp [ring_buffer_release_id, store]
    rcases get_id_cases (ring_buffer_release_id rb id) with ⟨hall, hg⟩ | ⟨k, hk, hk0, hlow, hg⟩
    · exact absurd (by simp [hrel]) (hall id hid)
    · rw [hg]
      constructor
      · intro h
        simp only [Nat.cast_inj] at h
        subst h
        intro j hj
        have := hlow j hj
        rw [hrel, if_neg (by omega)] at this
        exact this
      · intro h
        simp only [Nat.cast_inj]
        rcases Nat.lt_trichotomy k id with h1 | h1 | h1
        · rw [hrel, if_neg (by omega)] at hk0
          exact absurd hk0 (h k h1)
        · exact h1
        · have := hlow id h1
          rw [hrel] at this
          simp at this
  · intro cap fuel d
    simp only [pop_eq, g4]
    split_ifs
    · simp
    · simp [g1, g3]

/-- C7. Consumer independence: on every state `ring_buffer_pop(id)` leaves the
head, every storage slot, every claimed flag and every tail other than
`tete[id]` as they were; a pop that returns false changes nothing and one that
returns true advances `tete[id]` by one modulo `BUFFER_SIZE` (the tail being a
`__u8` value).  Scenario: two consumers claimed right after initialisation,
pushes X, Y, Z; in each of the three orders of the pops the first consumer
popping twice gets X then Y and the second popping once gets X. -/
theorem consumer_independence :
    (∀ (fuel : Nat) (rb : RingBuffer) (id : Nat) (d : fifo_element),
      ∃ ret e rb1, ring_buffer_pop BUFFER_SIZE (fuel + 1) rb id d = some (ret, e, rb1) ∧
        rb1.queue = rb.queue ∧ rb1.buffer = rb.buffer ∧
        rb1.consumer_id_distribues = rb.consumer_id_distribues ∧
        (∀ j, j ≠ id → rb1.tete j = rb.tete j) ∧
        (ret = false → rb1 = rb) ∧
        (ret = true → rb.tete id < 256 → rb1.tete id = (rb.tete id + 1) % BUFFER_SIZE)) ∧
    (∀ (fuel : Nat) (rb0 : RingBuffer) (X Y Z d : fifo_element),
      (ring_buffer_get_id (ring_buffer_init rb0)).1 = 0 ∧
      (ring_buffer_get_id (ring_buffer_get_id (ring_buffer_init rb0)).2).1 = 1 ∧
      pops_by BUFFER_SIZE (fuel + 1) d [0, 0, 1]
          (push_all BUFFER_SIZE
            (ring_buffer_get_id (ring_buffer_get_id (ring_buffer_init rb0)).2).2 [X, Y, Z]) =
        some [(0, true, X), (0, true, Y), (1, true, X)] ∧
      pops_by BUFFER_SIZE (fuel + 1) d [0, 1, 0]
          (push_all BUFFER_SIZE
            (ring_buffer_get_id (ring_buffer_get_id (ring_buffer_init rb0)).2).2 [X, Y, Z]) =
        some [(0, true, X), (1, true, X), (0, true, Y)] ∧
      pops_by BUFFER_SIZE (fuel + 1) d [1, 0, 0]
          (push_all BUFFER_SIZE
            (ring_buffer_get_id (ring_buffer_get_id (ring_buffer_init rb0)).2).2 [X, Y, Z]) =
        some [(1, true, X), (0, true, X), (0, true, Y)]) := by
  constructor
  · intro fuel rb id d
    rw [pop_eq]
    by_cases he : ring_buffer_is_empty rb id = true
    · exact ⟨false, d, rb, by simp [he], rfl, rfl, rfl, fun _ _ => rfl, fun _ => rfl,
        fun h => by simp at h⟩
    · refine ⟨true, rb.buffer (u8 (rb.tete id)), pop_cas BUFFER_SIZE rb id, by simp [he],
        rfl, rfl, rfl, fun j hj => by simp [pop_cas, store, hj], fun h => by simp at h, ?_⟩
      intro _ ht
      have hu : rb.tete id % 256 = rb.tete id := Nat.mod_eq_of_lt ht
      simp only [pop_cas, atomic_cmpxchg, store, u8, BUFFER_SIZE, if_true, hu]
      omega
  · intro fuel rb0 X Y Z d
    have t0 := init_tete rb0 0 (by decide)
    have t1 := init_tete rb0 1 (by decide)
    have q0 := init_queue rb0
    have fl0 := init_flags rb0 0 (by decide)
    have fl1 := init_flags rb0 1 (by decide)
    have hg0 : ring_buffer_get_id (ring_buffer_init rb0) = (((0 : Nat) : Int),
        { ring_buffer_init rb0 with
          consumer_id_distribues := store (ring_buffer_init rb0).consumer_id_distribues 0 1 }) :=
      get_id_loop_some MAX_CONSUMERS 0 0 _ (Nat.le_refl 0) (by decide) fl0
        (fun j h1 h2 => by omega)
    have hg1 : ring_buffer_get_id (ring_buffer_get_id (ring_buffer_init rb0)).2 = (((1 : Nat) : Int),
        { (ring_buffer_get_id (ring_buffer_init rb0)).2 with
          consumer_id_distribues :=
            store (ring_buffer_get_id (ring_buffer_init rb0)).2.consumer_id_distribues 1 1 }) := by
      refine get_id_loop_some MAX_CONSUMERS 0 1 _ (by omega) (by decide) ?_ ?_
      · simp [hg0, store, fl1]
      · intro j h1 h2
        have : j = 0 := by omega
        subst this
        simp [hg0, store]
    have ft := (get_id_frame (ring_buffer_get_id (ring_buffer_init rb0)).2).2.2
    have fq := (get_id_frame (ring_buffer_get_id (ring_buffer_init rb0)).2).2.1
    have ft0 := (get_id_frame (ring_buffer_init rb0)).2.2
    have fq0 := (get_id_frame (ring_buffer_init rb0)).2.1
    refine ⟨by rw [hg0]; rfl, by rw [hg1]; rfl, ?_, ?_, ?_⟩ <;>
      simp [pops_by, pop_eq, ring_buffer_is_empty, push_all, push_tete, push_queue, push_buffer,
        pop_cas, store, atomic_cmpxchg, u8, BUFFER_SIZE, MAX_CONSUMERS, ft, fq, ft0, fq0, t0,
        t1, q0]

/-- C6 as stated fails. A slot is claimed on a fresh buffer, a sample is pushed,
the slot is released and claimed again: the claim returns the same identity 0,
`ring_buffer_is_empty(0)` is false right after it, and the new owner's first pop
returns the sample that was pushed before the claim. -/
theorem reclaim_sees_old_backlog :
    (ring_buffer_get_id (ring_buffer_init rb_junk)).1 = 0 ∧
    (ring_buffer_get_id (ring_buffer_release_id (ring_buffer_push BUFFER_SIZE
      (ring_buffer_get_id (ring_buffer_init rb_junk)).2 (sample 1)) 0)).1 = 0 ∧
    ring_buffer_is_empty (ring_buffer_get_id (ring_buffer_release_id (ring_buffer_push
      BUFFER_SIZE (ring_buffer_get_id (ring_buffer_init rb_junk)).2 (sample 1)) 0)).2 0 = false ∧
    (ring_buffer_pop BUFFER_SIZE 1 (ring_buffer_get_id (ring_buffer_release_id
      (ring_buffer_push BUFFER_SIZE (ring_buffer_get_id (ring_buffer_init rb_junk)).2
        (sample 1)) 0)).2 0 (sample 0)).map (fun r => (r.1, r.2.1)) =
      some (true, sample 1) := by
  refine ⟨by decide, by decide, by decide, rfl⟩

/-- C8 as stated fails. On a slot holding one sample, a read of two bytes whose
`copy_to_user` fails returns `-EFAULT`, not 2, and delivers nothing, although the
sample has been popped. -/
theorem read_with_bad_user_buffer :
    ring_buffer_is_empty (ring_buffer_push BUFFER_SIZE (ring_buffer_init rb_junk) (sample 1)) 0
      = false ∧
    (adxl345_read BUFFER_SIZE 1 (ring_buffer_push BUFFER_SIZE (ring_buffer_init rb_junk)
      (sample 1)) { ringbuffer_id := 0, axe_actuel := axe_X } (sample 0) 2 false false).map
        (fun r => r.1) = some (ReadResult.ret (-EFAULT) []) ∧
    (adxl345_read BUFFER_SIZE 1 (ring_buffer_push BUFFER_SIZE (ring_buffer_init rb_junk)
      (sample 1)) { ringbuffer_id := 0, axe_actuel := axe_X } (sample 0) 2 false false).map
        (fun r => ring_buffer_is_empty r.2 0) = some true := by
  refine ⟨by decide, rfl, by decide⟩

/-- C8, as the code has it. Axis projection of a read: a session starts with the
tag X on open, the WRITE and READWRITE ioctls store the user's byte as the tag and
the READ ioctl hands the tag back without changing it.  On a non-empty slot
`adxl345_read` with requested count `c` pops exactly one sample `e`; when
`copy_to_user` succeeds it returns `min(2, c)` and delivers the first `min(2, c)`
bytes of `(e.data[2], e.data[3])` for tag Y, of `(e.data[4], e.data[5])` for tag Z
and of `(e.data[0], e.data[1])` for X or any other tag; when `copy_to_user` fails
it returns `-EFAULT`. -/
theorem axis_projection (cap fuel : Nat) (rb : RingBuffer) (pd : adxl345_privatedata)
    (elem : fifo_element) (c : Nat) (signal_pending : Bool)
    (h : ring_buffer_is_empty rb pd.ringbuffer_id = false) :
    (∀ (rb0 : RingBuffer) (pd0 : adxl345_privatedata) (rb1 : RingBuffer),
      adxl345_open true rb0 = (0, some pd0, rb1) → pd0.axe_actuel = axe_X) ∧
    (∀ b : Fin 256,
      adxl345_unlocked_ioctl pd ioctl_cmd.ADXL345_WRITE (some b) =
        (0, { pd with axe_actuel := b }, some b) ∧
      adxl345_unlocked_ioctl pd ioctl_cmd.ADXL345_READWRITE (some b) =
        (0, { pd with axe_actuel := b }, some b) ∧
      adxl345_unlocked_ioctl pd ioctl_cmd.ADXL345_READ (some b) =
        (0, pd, some pd.axe_actuel)) ∧
    ∃ e rb1,
      ring_buffer_pop cap (fuel + 1) rb pd.ringbuffer_id elem = some (true, e, rb1) ∧
      e = rb.buffer (u8 (rb.tete pd.ringbuffer_id)) ∧
      adxl345_read cap (fuel + 1) rb pd elem c signal_pending false =
        some (ReadResult.ret (-EFAULT) [], rb1) ∧
      (pd.axe_actuel = axe_Y →
        adxl345_read cap (fuel + 1) rb pd elem c signal_pending true =
          some (ReadResult.ret ((min 2 c : Nat) : Int) ([e.data 2, e.data 3].take (min 2 c)),
            rb1)) ∧
      (pd.axe_actuel = axe_Z →
        adxl345_read cap (fuel + 1) rb pd elem c signal_pending true =
          some (ReadResult.ret ((min 2 c : Nat) : Int) ([e.data 4, e.data 5].take (min 2 c)),
            rb1)) ∧
      (pd.axe_actuel ≠ axe_Y → pd.axe_actuel ≠ axe_Z →
        adxl345_read cap (fuel + 1) rb pd elem c signal_pending true =
          some (ReadResult.ret ((min 2 c : Nat) : Int) ([e.data 0, e.data 1].take (min 2 c)),
            rb1)) := by
  refine ⟨?_, ?_, ?_⟩
  · intro rb0 pd0 rb1 ho
    by_cases hg : (ring_buffer_get_id rb0).1 = -1
    · simp [adxl345_open, hg, ENOMEM] at ho
    · simp only [adxl345_open, hg, if_false, Prod.mk.injEq, Option.some.injEq, true_and,
        Bool.true_eq_false] at ho
      rw [← ho.1]
  · intro b
    exact ⟨rfl, rfl, rfl⟩
  · refine ⟨rb.buffer (u8 (rb.tete pd.ringbuffer_id)), pop_cas cap rb pd.ringbuffer_id,
      by simp [pop_eq, h], rfl, ?_, ?_, ?_, ?_⟩
    · simp [adxl345_read, pop_eq, h]
    · intro ha
      rcases c with _ | _ | c <;> simp [adxl345_read, pop_eq, h, ha]
    · intro ha
      have hy : ¬ (axe_Z = axe_Y) := by decide
      rcases c with _ | _ | c <;> simp [adxl345_read, pop_eq, h, ha, hy]
    · intro hy hz
      rcases c with _ | _ | c <;> simp [adxl345_read, pop_eq, h, hy, hz]

theorem run_of_exec (ops : List Op)
    (h : (Run.exec BUFFER_SIZE 1 (Run.start rb_junk) ops).isSome = true) :
    Run.exec BUFFER_SIZE 1 (Run.start rb_junk) ops = some (run_of ops) := by
  cases he : Run.exec BUFFER_SIZE 1 (Run.start rb_junk) ops with
  | none => simp [he] at h
  | some r => simp [run_of, he]

theorem run_of_reachable (ops : List Op)
    (h : (Run.exec BUFFER_SIZE 1 (Run.start rb_junk) ops).isSome = true) :
    Reachable BUFFER_SIZE (run_of ops) :=
  ⟨1, rb_junk, ops, run_of_exec ops h⟩

/-! ## Concurrent executions

Run without interference, the statements of each thread add up to the sequential
function. -/

theorem producer_steps_push (cap : Nat) (s : System) (x : fifo_element)
    (rest : List fifo_element) (hpc : s.producer.pc = ProducerPc.read_queue)
    (htodo : s.producer.todo = x :: rest) :
    (System.run cap s (List.replicate 7 Thread.producer)).rb = ring_buffer_push cap s.rb x ∧
    (System.run cap s (List.replicate 7 Thread.producer)).producer.todo = rest ∧
    (System.run cap s (List.replicate 7 Thread.producer)).producer.pc = ProducerPc.read_queue ∧
    (System.run cap s (List.replicate 7 Thread.producer)).consumer = s.consumer := by
  obtain ⟨rb, p, c, ep⟩ := s
  obtain ⟨pc, q, n1, n2, todo⟩ := p
  simp only at hpc htodo
  subst hpc htodo
  have hr : List.range 4 = [0, 1, 2, 3] := by decide
  simp [System.run, System.step, producer_step, MAX_CONSUMERS, List.replicate,
    atomic_cmpxchg, ring_buffer_push, hr]

theorem consumer_steps_pop (cap : Nat) (s : System)
    (hpc : s.consumer.pc = ConsumerPc.empty_read_queue) :
    ∃ ret,
      (System.run cap s (List.replicate 5 Thread.consumer)).consumer.pc =
        ConsumerPc.returned ret ∧
      ring_buffer_pop cap 1 s.rb s.consumer.consumer_id s.consumer.data =
        some (ret, (System.run cap s (List.replicate 5 Thread.consumer)).consumer.data,
          (System.run cap s (List.replicate 5 Thread.consumer)).rb) := by
  obtain ⟨rb, p, c, ep⟩ := s
  obtain ⟨pc, id, q, t, ti, tn, d, ce⟩ := c
  simp only at hpc
  subst hpc
  by_cases he : ring_buffer_is_empty rb id = true
  · refine ⟨false, ?_, ?_⟩
    · simp only [ring_buffer_is_empty, beq_iff_eq] at he
      simp [System.run, System.step, consumer_step, List.replicate, he]
    · simp only [pop_eq, he, if_true]
      simp only [ring_buffer_is_empty, beq_iff_eq] at he
      simp [System.run, System.step, consumer_step, List.replicate, he]
  · refine ⟨true, ?_, ?_⟩
    · simp only [ring_buffer_is_empty, beq_iff_eq] at he
      simp [System.run, System.step, consumer_step, List.replicate, he, atomic_cmpxchg]
    · simp only [pop_eq, he]
      simp only [ring_buffer_is_empty, beq_iff_eq] at he
      simp [System.run, System.step, consumer_step, List.replicate, he, atomic_cmpxchg, pop_cas]

/-- C4 fails on the code. One producer and one consumer, interleaved: the consumer
copies slot 0 (sample 0, first write of the slot), the producer then pushes 62
samples, which overwrites slot 0 with sample 32 and drives `tete[0]` once around
the ring back to 0, and the consumer's compare-and-set succeeds: the pop returns
true with sample 0, copied from a slot the producer overwrote after the copy. -/
theorem pop_returns_overwritten_sample :
    aba_middle.consumer.pc = ConsumerPc.cas ∧
    aba_middle.consumer.tete_idx = 0 ∧
    aba_middle.consumer.data = sample 0 ∧
    aba_middle.consumer.copied_epoch = 1 ∧
    aba_middle.rb.tete 0 = 2 ∧
    aba_middle.rb.buffer 0 = sample 32 ∧
    aba_middle.epoch 0 = 2 ∧
    aba_final.consumer.pc = ConsumerPc.returned true ∧
    aba_final.consumer.tete_idx = 0 ∧
    aba_final.consumer.data = sample 0 ∧
    aba_final.consumer.copied_epoch = 1 ∧
    aba_final.epoch 0 = 2 ∧
    aba_final.rb.buffer 0 = sample 32 ∧
    aba_final.rb.tete 0 = 1 ∧
    aba_final.rb.queue = 31 ∧
    aba_final.producer.todo = [] := by
  refine ⟨by decide, by decide, rfl, by decide, by decide, rfl, by decide, by decide,
    by decide, rfl, by decide, by decide, rfl, by decide, by decide, ?_⟩
  rfl

/-! ## Instances -/

/-- Instance of C1: consumer 0 has drained the buffer; three samples are pushed and
popped back in order, and a fourth pop returns false. -/
theorem fifo_delivery_witness :
    ∃ rb2,
      pop_n BUFFER_SIZE 1 0 3
          (push_all BUFFER_SIZE (run_of drained_ops).rb [sample 7, sample 8, sample 9])
          (sample 0) =
        some ([(true, sample 7), (true, sample 8), (true, sample 9)], rb2) ∧
      ∀ d1, ring_buffer_pop BUFFER_SIZE 1 rb2 0 d1 = some (false, d1, rb2) :=
  fifo_delivery (run_of drained_ops) (run_of_reachable drained_ops (by decide)) 0 (by decide)
    (by decide) [sample 7, sample 8, sample 9] (by decide) 0 (sample 0)

/-- Instance of C2: consumer 1 is idle while 40 numbered samples are pushed; its
next pop returns sample 9. -/
theorem overflow_law_witness :
    ∃ e rb2,
      ring_buffer_pop BUFFER_SIZE 1 (push_all BUFFER_SIZE (run_of demo_ops).rb (numbered 40)) 1
        (sample 0) = some (true, e, rb2) ∧
      (numbered 40)[9]? = some e := by
  obtain ⟨⟨e, rb2, h1, _, h3, _⟩, _⟩ :=
    overflow_law (run_of demo_ops) (run_of_reachable demo_ops (by decide)) 1 (by decide)
      (numbered 40) (by decide) 0 (sample 0)
  exact ⟨e, rb2, h1, h3⟩

/-- Instance of C3 on an execution in which consumer 0 drained the buffer, and on
the raw memory `rb_junk`. -/
theorem emptiness_accuracy_witness :
    (ring_buffer_is_empty (run_of drained_ops).rb 0 = true ↔
      (run_of drained_ops).popped 0 + (run_of drained_ops).dropped 0 =
        (run_of drained_ops).pushed.length) ∧
    (ring_buffer_is_empty rb_junk 0 = true ↔ rb_junk.tete 0 = rb_junk.queue) :=
  ⟨(emptiness_accuracy.2.2.1 (run_of drained_ops) (run_of_reachable drained_ops (by decide))
      0 (by decide)).2,
    emptiness_accuracy.2.1 rb_junk 0 (by decide) (by decide)⟩

/-- Instance of C5: after four claims a fifth one fails and `adxl345_open` returns
`-ENOMEM`. -/
theorem slot_claiming_witness :
    (ring_buffer_get_id (run_of four_claims).rb).1 = -1 ∧
    ∀ kmalloc_ok, (adxl345_open kmalloc_ok (run_of four_claims).rb).1 = -ENOMEM :=
  (slot_claiming.2.2.2 BUFFER_SIZE 1 rb_junk four_claims (run_of four_claims) (by decide)
    (run_of_exec four_claims (by decide))).2 (by decide)

/-- Instance of C6 (as the code has it): slot 0 released and claimed again. -/
theorem release_then_reclaim_witness :
    ring_buffer_is_empty
        (ring_buffer_get_id (ring_buffer_release_id (run_of demo_ops).rb 0)).2 0 =
      ring_buffer_is_empty (run_of demo_ops).rb 0 :=
  (release_then_reclaim (run_of demo_ops).rb 0 (by decide)).2.2.2.2.1

/-- Instance of C7: a successful pop of consumer 0 advances its tail by one. -/
theorem consumer_independence_witness :
    ∃ e rb1,
      ring_buffer_pop BUFFER_SIZE 1 (run_of demo_ops).rb 0 (sample 0) = some (true, e, rb1) ∧
      rb1.tete 0 = ((run_of demo_ops).rb.tete 0 + 1) % BUFFER_SIZE := by
  obtain ⟨ret, e, rb1, hp, _, _, _, _, _, hadv⟩ :=
    consumer_independence.1 0 (run_of demo_ops).rb 0 (sample 0)
  have hret : (ring_buffer_pop BUFFER_SIZE 1 (run_of demo_ops).rb 0 (sample 0)).map
      (fun r => r.1) = some true := by decide
  rw [hp] at hret
  simp only [Option.map_some', Option.some.injEq] at hret
  subst hret
  exact ⟨e, rb1, hp, hadv rfl (by decide)⟩

/-- Instance of C8 (as the code has it): a read of two bytes on the axis Y. -/
theorem axis_projection_witness :
    ∃ e rb1,
      ring_buffer_pop BUFFER_SIZE 1 (run_of demo_ops).rb 0 (sample 0) = some (true, e, rb1) ∧
      adxl345_read BUFFER_SIZE 1 (run_of demo_ops).rb session_Y (sample 0) 2 false true =
        some (ReadResult.ret 2 [e.data 2, e.data 3], rb1) := by
  obtain ⟨_, _, e, rb1, hp, _, _, hy, _, _⟩ :=
    axis_projection BUFFER_SIZE 0 (run_of demo_ops).rb session_Y (sample 0) 2 false (by decide)
  exact ⟨e, rb1, hp, hy rfl⟩

/-- Instance of C9: after 40 pushes and no pop, consumer 0 has at most 31 unread
samples. -/
theorem unread_window_invariant_witness :
    ((run_of overrun_ops).rb.queue + BUFFER_SIZE - (run_of overrun_ops).rb.tete 0) % BUFFER_SIZE
      ≤ min (run_of overrun_ops).pushed.length (BUFFER_SIZE - 1) :=
  (unread_window_invariant (run_of overrun_ops) (run_of_reachable overrun_ops (by decide)) 0
    (by decide)).1

/-- Instance of C10: a push on a buffer holding 40 samples. -/
theorem push_overflow_correction_witness :
    (ring_buffer_push BUFFER_SIZE (run_of overrun_ops).rb (sample 77)).tete 0 ≠
      (ring_buffer_push BUFFER_SIZE (run_of overrun_ops).rb (sample 77)).queue :=
  ((push_overflow_correction (run_of overrun_ops) (run_of_reachable overrun_ops (by decide))
    (sample 77)).1 0 (by decide)).1

end Adxl345
